import Mathlib

/-!
Verification of the tech-jobs-tracker pipeline (notify.py) and its control
server (server.py) against the repository specification.

Shallow embedding conventions:
* Calendar dates are modelled as `Int` day numbers; `close_date < today` in the
  source becomes `Int` comparison, and `(close_date - today).days` becomes
  subtraction of day numbers.
* `dateutil`-based `parse_date` and the regex-based `extract_emails` /
  `extract_phones` are external best-effort parsers; they are taken as
  parameters (`pd : String → Option Int`, `ee ep : String → List String`),
  so every theorem quantifies over all their possible behaviours.
* Python string primitives (`str.strip`, `str.startswith`, slicing, `int()`,
  splitting) are modelled by structurally recursive functions over the
  character list of a `String` (`strTrim`, `strStartsWith`, ...), keeping
  every definition kernel-computable.
* Python dict job records are modelled by the `Job` structure (all relevant
  fields default to the empty string, matching `str(job.get(k, ""))`
  coercion). The normalized record keeps the original dict (`job` field,
  which the source mutates only by adding derived keys) plus the derived
  keys; the in-place rewrite `job["closing_date"] = close_date.isoformat()`
  is modelled by storing the resolved date itself in `close_date`.
* Python sets of strings are modelled as `List String` with membership.
* Filesystem paths are lists of components of an absolute path;
  `Path.resolve` is modelled by component normalisation of `.` and `..`
  (symlinks are ignored; the root directory argument is assumed already
  resolved, as the source resolves it first).
* `os.kill(pid, 0)` probing and the filesystem around the lock marker are
  modelled by an environment record `LockEnv`.
-/

namespace JobsTracker

/-! ## String primitives (kernel-computable models of Python's) -/

/-- Python `str.strip()`: drop leading and trailing whitespace. -/
def strTrim (s : String) : String :=
  String.mk
    (((s.toList.dropWhile Char.isWhitespace).reverse.dropWhile
        Char.isWhitespace).reverse)

/-- Python `s.startswith(p)`. -/
def strStartsWith (s p : String) : Bool :=
  p.toList.isPrefixOf s.toList

/-- Python slicing `s[n:]`. -/
def strDrop (s : String) (n : Nat) : String :=
  String.mk (s.toList.drop n)

/-- Split a character list at the characters satisfying `p`; adjacent
separators produce empty groups, like Python `str.split(sep)`. -/
def splitChars (p : Char → Bool) : List Char → List (List Char)
  | [] => [[]]
  | a :: rest =>
    let r := splitChars p rest
    if p a then [] :: r
    else
      match r with
      | [] => [[a]]
      | g :: gs => (a :: g) :: gs

/-- Decimal value of a digit string. -/
def digitsToNat (l : List Char) : Nat :=
  l.foldl (fun acc c => acc * 10 + (c.toNat - '0'.toNat)) 0

/-- Parse a non-empty all-digit string to a natural number. -/
def strToNat? (s : String) : Option Nat :=
  if s.toList ≠ [] ∧ s.toList.all Char.isDigit then some (digitsToNat s.toList)
  else none

/-- Join strings with a separator (model of `"/".join`). -/
def joinWith (sep : String) : List String → String
  | [] => ""
  | [a] => a
  | a :: b :: rest => a ++ sep ++ joinWith sep (b :: rest)

/-! ## notify.py -/

/-- `normalize_phone` from src/notify.py: strip, remove non-digits
(Python `\D`; ASCII digits here), collapse a leading `0093` to `93` by
dropping two characters, then prefix `+` when the digits start with `93`
or the stripped raw input starts with `+`. -/
def normalize_phone (raw : String) : String :=
  let r := strTrim raw
  let digits0 := String.mk (r.toList.filter Char.isDigit)
  let digits := if strStartsWith digits0 "0093" then strDrop digits0 2 else digits0
  if strStartsWith digits "93" then "+" ++ digits
  else if strStartsWith r "+" then "+" ++ digits
  else digits

/-- The digit string `normalize_phone` works with: non-digits removed from
the stripped input, with a leading `0093` collapsed to `93`. -/
def phoneDigits (raw : String) : String :=
  let digits0 := String.mk ((strTrim raw).toList.filter Char.isDigit)
  if strStartsWith digits0 "0093" then strDrop digits0 2 else digits0

/-- A raw posting record (Python dict). Fields the pipeline reads; a missing
key reads as `""` (the source coerces with `str(job.get(k, ""))`). -/
structure Job where
  url : String := ""
  description : String := ""
  details : String := ""
  apply_url : String := ""
  closing_date : String := ""
  closing_date_raw : String := ""
deriving DecidableEq, Repr

/-- `str(job.get("closing_date", "") or job.get("closing_date_raw", "") or "").strip()`:
Python `or` picks the first truthy (non-empty) string. -/
def closeRaw (j : Job) : String :=
  strTrim (if j.closing_date ≠ "" then j.closing_date else j.closing_date_raw)

/-- A normalized posting: the original dict plus the keys the pipeline adds
(`emails`, `phones`, `apply_method`, `source`, `is_new`); `close_date` is the
resolved closing date (the source rewrites `job["closing_date"]` to its ISO
rendering exactly when it is `some`). -/
structure NJob where
  job : Job
  emails : List String
  phones : List String
  apply_method : String
  source : String
  close_date : Option Int
  is_new : Bool
deriving DecidableEq, Repr

/-- Build the normalized record for one kept posting, as the loop body of
`normalize_jobs` does. -/
def mkNJob (pd : String → Option Int) (ee ep : String → List String)
    (seen_urls : List String) (j : Job) : NJob :=
  let combined := j.description ++ "\n" ++ j.details
  let emails := ee combined
  { job := j
    emails := emails
    phones := ep combined
    apply_method :=
      if strTrim j.apply_url ≠ "" then "apply_url"
      else if emails ≠ [] then "email"
      else "unknown"
    source := "jobs.af"
    close_date := pd (closeRaw j)
    is_new := !(decide (strTrim j.url ∈ seen_urls)) }

/-- The loop of `normalize_jobs`, with the mutable `seen_in_run` set passed
explicitly. A posting is skipped when its trimmed url is empty or already in
`seen_in_run`; otherwise its url is recorded in `seen_in_run` and the posting
is dropped when its resolved closing date is strictly before `today`,
otherwise emitted. -/
def normalizeJobsAux (pd : String → Option Int) (ee ep : String → List String)
    (seen_urls : List String) (today : Int) :
    List Job → List String → List NJob
  | [], _ => []
  | j :: rest, s =>
    if strTrim j.url = "" ∨ strTrim j.url ∈ s then
      normalizeJobsAux pd ee ep seen_urls today rest s
    else
      match pd (closeRaw j) with
      | some d =>
          if d < today then
            normalizeJobsAux pd ee ep seen_urls today rest (strTrim j.url :: s)
          else
            mkNJob pd ee ep seen_urls j ::
              normalizeJobsAux pd ee ep seen_urls today rest (strTrim j.url :: s)
      | none =>
          mkNJob pd ee ep seen_urls j ::
            normalizeJobsAux pd ee ep seen_urls today rest (strTrim j.url :: s)

/-- `normalize_jobs(jobs, seen_urls, today)` from src/notify.py. -/
def normalize_jobs (pd : String → Option Int) (ee ep : String → List String)
    (jobs : List Job) (seen_urls : List String) (today : Int) : List NJob :=
  normalizeJobsAux pd ee ep seen_urls today jobs []

/-- `compute_expiring(jobs, today)` from src/notify.py: re-reads and
re-parses the closing-date field of each record and buckets by
`delta = close_date - today`. Returns `(exp_today, exp_soon)`. -/
def compute_expiring (pd : String → Option Int) (today : Int) :
    List Job → List Job × List Job
  | [] => ([], [])
  | j :: rest =>
    let acc := compute_expiring pd today rest
    match pd (closeRaw j) with
    | none => acc
    | some d =>
        let delta := d - today
        if delta = 0 then (j :: acc.1, acc.2)
        else if 1 ≤ delta ∧ delta ≤ 2 then (acc.1, j :: acc.2)
        else acc

/-- The `seen_urls` list that `main` passes to `save_state`:
`[job.get("url") for job in normalized if job.get("url")]`. -/
def saved_seen_urls (njobs : List NJob) : List String :=
  (njobs.filter (fun nj => nj.job.url ≠ "")).map (fun nj => nj.job.url)

/-- The seen-set written to the run-state document at run end, as a function
of the raw batch, the loaded seen-set and the run date (composition of
`normalize_jobs` and the list comprehension in `main`). -/
def run_saved_seen (pd : String → Option Int) (ee ep : String → List String)
    (jobs : List Job) (prevSeen : List String) (today : Int) : List String :=
  saved_seen_urls (normalize_jobs pd ee ep jobs prevSeen today)

/-! ## server.py -/

/-- Split a POSIX path string into components, dropping empty ones. -/
def splitPath (s : String) : List String :=
  ((splitChars (fun c => c = '/') s.toList).map String.mk).filter
    (fun c => c ≠ "")

/-- Normalise `.` and `..` components against an already-resolved absolute
base, as `Path.resolve` does (`..` at the filesystem root stays put). -/
def resolveComponents : List String → List String → List String
  | acc, [] => acc
  | acc, c :: rest =>
    if c = "." then resolveComponents acc rest
    else if c = ".." then resolveComponents acc.dropLast rest
    else resolveComponents (acc ++ [c]) rest

/-- Render an absolute path from its components. -/
def pathToString (cs : List String) : String :=
  "/" ++ joinWith "/" cs

/-- `(root / rel).resolve()` for an already-resolved `root`: a relative `rel`
is joined onto `root`; an absolute `rel` replaces it (pathlib semantics). -/
def resolveTarget (root : List String) (rel : String) : List String :=
  if strStartsWith rel "/" then resolveComponents [] (splitPath rel)
  else resolveComponents root (splitPath rel)

/-- Outcome of `Handler.serve_file` (the 500 read-failure branch is not
modelled; `served` carries the resolved path whose bytes are returned). -/
inductive ServeResult where
  | forbidden
  | notFound
  | served (target : List String)
deriving DecidableEq, Repr

/-- `Handler.serve_file` from src/server.py: resolve the target, refuse with
403 unless the target's string form starts with the root's string form, then
404 unless a regular file exists there, else serve it. `fsIsFile` models
`target.exists() and target.is_file()`. -/
def serve_file (fsIsFile : List String → Bool) (root : List String)
    (rel : String) : ServeResult :=
  let target := resolveTarget root rel
  if strStartsWith (pathToString target) (pathToString root) then
    if fsIsFile target then ServeResult.served target
    else ServeResult.notFound
  else ServeResult.forbidden

/-- Result of probing a pid with `os.kill(pid, 0)`. -/
inductive ProcStatus where
  | running
  | dead
  | denied
deriving DecidableEq, Repr

/-- Environment `lock_active` runs in: whether the marker file exists, what
reading it yields (`none` models a raised exception), the liveness of each
pid, and whether `unlink` would succeed. -/
structure LockEnv where
  lockExists : Bool
  readResult : Option String
  procStatus : Int → ProcStatus
  unlinkOk : Bool

/-- What `lock_active` returns together with whether the marker file is still
on disk afterwards. -/
structure LockOutcome where
  active : Bool
  markerRemains : Bool
deriving DecidableEq, Repr

/-- Python `int(s)` on a whitespace-free token: optional sign then decimal
digits (underscore grouping is not modelled). -/
def pyInt (s : String) : Option Int :=
  if strStartsWith s "-" then (strToNat? (strDrop s 1)).map (fun n => -(n : Int))
  else if strStartsWith s "+" then (strToNat? (strDrop s 1)).map (fun n => (n : Int))
  else (strToNat? s).map (fun n => (n : Int))

/-- `contents.split()[0]`: first whitespace-separated token. -/
def firstToken (s : String) : String :=
  (((splitChars Char.isWhitespace s.toList).map String.mk).filter
      (fun t => t ≠ "")).headD ""

/-- `lock_active` from src/server.py. Missing marker: free. Unreadable,
empty, or unparseable marker: held. Parsed pid: held when the probe succeeds
or is denied; on `ProcessLookupError` the marker is unlinked (failure to
unlink ignored) and the lock reported free. -/
def lock_active (env : LockEnv) : LockOutcome :=
  if env.lockExists = false then ⟨false, false⟩
  else
    match env.readResult with
    | none => ⟨true, true⟩
    | some raw =>
      if strTrim raw = "" then ⟨true, true⟩
      else
        match pyInt (firstToken (strTrim raw)) with
        | none => ⟨true, true⟩
        | some pid =>
          match env.procStatus pid with
          | ProcStatus.running => ⟨true, true⟩
          | ProcStatus.denied => ⟨true, true⟩
          | ProcStatus.dead => ⟨false, !env.unlinkOk⟩

/-! ## Concrete fixtures used by counterexamples and witnesses -/

/-- A simple concrete date resolver: a string of decimal digits resolves to
that day number, anything else is unresolvable. -/
def pdTest : String → Option Int := fun s => (strToNat? s).map (fun n => (n : Int))

/-- A trivial concrete contact extractor. -/
def exTest : String → List String := fun _ => []

/-- Fixture posting with url `"u1"` and no closing date. -/
def jobA : Job := { url := "u1" }

/-- Fixture posting duplicating `jobA`'s trimmed url. -/
def jobB : Job := { url := " u1 ", description := "dup" }

/-- Fixture posting with url `"u2"` closing on day 5. -/
def jobC : Job := { url := "u2", closing_date := "5" }

/-- Lock environment: marker present and readable, owner pid dead,
unlink would succeed. -/
def envDead : LockEnv :=
  { lockExists := true
    readResult := some "123 run_now.sh"
    procStatus := fun _ => ProcStatus.dead
    unlinkOk := true }

/-- Lock environment: marker present, owner pid dead, unlink would fail. -/
def envDeadStuck : LockEnv :=
  { lockExists := true
    readResult := some "123"
    procStatus := fun _ => ProcStatus.dead
    unlinkOk := false }

/-- Lock environment: marker present but unreadable. -/
def envUnreadable : LockEnv :=
  { lockExists := true
    readResult := none
    procStatus := fun _ => ProcStatus.running
    unlinkOk := true }

/-- A filesystem in which every path is a regular file. -/
def fsAll : List String → Bool := fun _ => true

/-! ## C3: normalize_phone -/

/-- Claim C3 as stated is false: the input `"077+1"` explicitly has a `+`
in it and its digit string `"0771"` does not start with `93`, so the claim
demands the output `"+0771"`; the code only honours a `+` at the start of
the (stripped) input and returns the bare digits. -/
theorem C3_counterexample :
    normalize_phone "077+1" = "0771" ∧
    ("077+1".toList.contains '+') = true ∧
    "0771" ≠ "+0771" := by
  refine ⟨by decide, rfl, by decide⟩

/-- Claim C3 (amended): `normalize_phone` strips non-digits from the trimmed
input and collapses a leading `0093` to `93` (that is `phoneDigits`); the
result carries a `+` prefix exactly when that digit string starts with `93`
or the trimmed original input starts with `+` (a `+` elsewhere in the input
is ignored); otherwise the bare digits are returned. -/
theorem C3_normalize_phone_plus_rule (raw : String) :
    normalize_phone raw =
      (if strStartsWith (phoneDigits raw) "93" = true ∨
          strStartsWith (strTrim raw) "+" = true
       then "+" ++ phoneDigits raw
       else phoneDigits raw) := by
  unfold normalize_phone phoneDigits
  by_cases h0 :
      strStartsWith (String.mk ((strTrim raw).toList.filter Char.isDigit))
        "0093" = true <;>
            simp only [h0, if_true, if_false] <;>
      by_cases h2 : strStartsWith (strTrim raw) "+" = true <;>
        simp_all

/-! ## C8, C9, C10: lock_active -/

/-- Claim C8: when the marker exists, its first token parses to a pid whose
probe raises `ProcessLookupError` (the process is confirmed not running),
and unlinking succeeds, `lock_active` returns free and the stale marker is
removed. -/
theorem C8_stale_lock_freed (env : LockEnv) (raw : String) (pid : Int)
    (hE : env.lockExists = true)
    (hR : env.readResult = some raw)
    (hP : pyInt (firstToken (strTrim raw)) = some pid)
    (hD : env.procStatus pid = ProcStatus.dead)
    (hU : env.unlinkOk = true) :
    lock_active env = ⟨false, false⟩ := by
  unfold lock_active
  rw [hE, hR]
  simp only [Bool.true_eq_false, if_false]
  by_cases hT : strTrim raw = ""
  · rw [hT] at hP
    have : pyInt (firstToken "") = none := by decide
    rw [this] at hP
    exact absurd hP (by simp)
  · simp only [hT, if_false]
    rw [hP]
    dsimp only
    rw [hD, hU]
    rfl

/-- Witness for C8 at a concrete environment. -/
theorem C8_witness : lock_active envDead = ⟨false, false⟩ :=
  C8_stale_lock_freed envDead "123 run_now.sh" 123 rfl rfl (by decide) rfl rfl

/-- Claim C9: with the marker present, an unreadable marker, an empty
marker, or a first token that does not parse as an integer each yield
"held" (fail-closed); and the only way an existing marker yields "free" is
a parsed pid whose owner is definitively dead. -/
theorem C9_fail_closed (env : LockEnv) (hE : env.lockExists = true) :
    ((env.readResult = none → (lock_active env).active = true) ∧
     (∀ raw, env.readResult = some raw → strTrim raw = "" →
        (lock_active env).active = true) ∧
     (∀ raw, env.readResult = some raw →
        pyInt (firstToken (strTrim raw)) = none →
        (lock_active env).active = true) ∧
     ((lock_active env).active = false →
        ∃ raw pid, env.readResult = some raw ∧
          pyInt (firstToken (strTrim raw)) = some pid ∧
          env.procStatus pid = ProcStatus.dead)) := by
  unfold lock_active
  rw [hE]
  simp only [Bool.true_eq_false, if_false]
  refine ⟨?_, ?_, ?_, ?_⟩
  · intro h; rw [h]
  · intro raw h hT; rw [h]; simp [hT]
  · intro raw h hP
    rw [h]
    by_cases hT : strTrim raw = ""
    · simp [hT]
    · simp only [hT, if_false]
      rw [hP]
  · cases hRd : env.readResult with
    | none => simp
    | some raw =>
      by_cases hT : strTrim raw = ""
      · simp [hT]
      · simp only [hT, if_false]
        cases hP : pyInt (firstToken (strTrim raw)) with
        | none => simp
        | some pid =>
          dsimp only
          cases hS : env.procStatus pid with
          | running => simp
          | denied => simp
          | dead => intro _; exact ⟨raw, pid, rfl, hP, hS⟩

/-- Witness for C9 at a concrete environment with an unreadable marker. -/
theorem C9_witness : (lock_active envUnreadable).active = true :=
  (C9_fail_closed envUnreadable rfl).1 rfl

/-- Claim C10: a dead owner yields "free" even when removing the stale
marker fails; the marker is then left on disk. -/
theorem C10_free_despite_unlink_failure (env : LockEnv) (raw : String)
    (pid : Int)
    (hE : env.lockExists = true)
    (hR : env.readResult = some raw)
    (hP : pyInt (firstToken (strTrim raw)) = some pid)
    (hD : env.procStatus pid = ProcStatus.dead)
    (hU : env.unlinkOk = false) :
    lock_active env = ⟨false, true⟩ := by
  unfold lock_active
  rw [hE, hR]
  simp only [Bool.true_eq_false, if_false]
  by_cases hT : strTrim raw = ""
  · rw [hT] at hP
    have : pyInt (firstToken "") = none := by decide
    rw [this] at hP
    exact absurd hP (by simp)
  · simp only [hT, if_false]
    rw [hP]
    dsimp only
    rw [hD, hU]
    rfl

/-- Witness for C10 at a concrete environment where unlink fails. -/
theorem C10_witness : lock_active envDeadStuck = ⟨false, true⟩ :=
  C10_free_despite_unlink_failure envDeadStuck "123" 123 rfl rfl (by decide)
    rfl rfl

/-! ## C2: serve_file path-escape check -/

/-- Claim C2 as stated is false: with root `/home/user/jobsaf/data`, the
request `../data2/secret.txt` resolves to `/home/user/jobsaf/data2/secret.txt`,
which is outside the root (the root's components are not a prefix of the
target's), yet `serve_file` serves it, because the target's string form
starts with the root's string form. -/
theorem C2_counterexample :
    serve_file fsAll ["home", "user", "jobsaf", "data"] "../data2/secret.txt"
      = ServeResult.served ["home", "user", "jobsaf", "data2", "secret.txt"] ∧
    ¬ (["home", "user", "jobsaf", "data"] <+:
        ["home", "user", "jobsaf", "data2", "secret.txt"]) := by
  refine ⟨by decide, by decide⟩

/-- Claim C2 (amended): `serve_file` refuses (403, without touching the
filesystem) exactly those requests whose resolved target path string does
not start with the root path string, and anything it serves is the resolved
target, has the root string as a prefix of its string form, and is a file;
this guard does not block every location outside the root, since a sibling
of the root whose name extends the root's last component also passes the
string-prefix test. -/
theorem C2_string_prefix_guard (fs : List String → Bool)
    (root : List String) (rel : String) :
    (serve_file fs root rel = ServeResult.forbidden ↔
      strStartsWith (pathToString (resolveTarget root rel))
        (pathToString root) = false) ∧
    (∀ t, serve_file fs root rel = ServeResult.served t →
      t = resolveTarget root rel ∧
      strStartsWith (pathToString t) (pathToString root) = true ∧
      fs t = true) := by
  constructor
  · unfold serve_file
    by_cases hS : strStartsWith (pathToString (resolveTarget root rel))
        (pathToString root) = true
    · by_cases hF : fs (resolveTarget root rel) = true
      · simp [hS, hF]
      · simp [hS, hF]
    · simp [hS]
  · intro t ht
    unfold serve_file at ht
    by_cases hS : strStartsWith (pathToString (resolveTarget root rel))
        (pathToString root) = true
    · by_cases hF : fs (resolveTarget root rel) = true
      · simp only [hS, hF, if_true] at ht
        cases ht
        exact ⟨rfl, hS, hF⟩
      · simp [hS, hF] at ht
    · simp [hS] at ht

/-- Witness for C2's amended theorem at a concrete served request. -/
theorem C2_witness :
    (["etc"] : List String) = resolveTarget ["etc"] "" ∧
    strStartsWith (pathToString ["etc"]) (pathToString ["etc"]) = true ∧
    fsAll ["etc"] = true :=
  (C2_string_prefix_guard fsAll ["etc"] "").2 ["etc"] (by decide)

/-! ## C5: compute_expiring -/

/-- Claim C5: the two buckets of `compute_expiring` are exactly the
input-order-preserving sublists of postings whose resolved closing date has
`delta = close_date - today` equal to 0 (expiring today), respectively in
`[1, 2]` (expiring soon); postings with an unresolvable date, `delta < 0`,
or `delta > 2` appear in neither bucket. -/
theorem C5_compute_expiring_buckets (pd : String → Option Int)
    (jobs : List Job) (today : Int) :
    compute_expiring pd today jobs =
      (jobs.filter
        (fun j => (pd (closeRaw j)).any (fun d => decide (d - today = 0))),
       jobs.filter
        (fun j => (pd (closeRaw j)).any
          (fun d => decide (1 ≤ d - today ∧ d - today ≤ 2)))) := by
  induction jobs with
  | nil => rfl
  | cons j rest ih =>
    unfold compute_expiring
    rw [ih]
    cases hC : pd (closeRaw j) with
    | none =>
      simp only [List.filter_cons, hC, Option.any_none, Bool.false_eq_true,
        if_false]
    | some d =>
      simp only [List.filter_cons, hC, Option.any_some, decide_eq_true_eq]
      by_cases h0 : d - today = 0
      · have h12 : ¬(1 ≤ d - today ∧ d - today ≤ 2) := by omega
        rw [if_pos h0, if_pos h0, if_neg h12]
      · by_cases h12 : 1 ≤ d - today ∧ d - today ≤ 2
        · rw [if_neg h0, if_neg h0, if_pos h12, if_pos h12]
        · rw [if_neg h0, if_neg h0, if_neg h12, if_neg h12]

/-! ## C1: seen_urls written at run end -/

/-- Claim C1 as stated is false: loading run state with
`seen_urls = ["a"]` and running on an empty raw batch saves an empty
seen-set, which is not a superset of the loaded one — the saved set is not
accumulated across runs. -/
theorem C1_counterexample :
    "a" ∈ (["a"] : List String) ∧
    run_saved_seen pdTest exTest exTest [] ["a"] 0 = [] ∧
    "a" ∉ run_saved_seen pdTest exTest exTest [] ["a"] 0 := by
  refine ⟨by decide, by decide, by decide⟩

/-- Claim C1 (amended): the `seen_urls` written to the run-state document at
run end contains exactly the non-empty (original, untrimmed) urls of the
postings in this run's normalized output; it is rebuilt from scratch each
run, so a url in the loaded seen-set that yields no posting in this run's
normalized output is absent from the saved set. -/
theorem C1_saved_seen_characterization (pd : String → Option Int)
    (ee ep : String → List String) (jobs : List Job)
    (prevSeen : List String) (today : Int) (u : String) :
    u ∈ run_saved_seen pd ee ep jobs prevSeen today ↔
      (u ≠ "" ∧ ∃ nj ∈ normalize_jobs pd ee ep jobs prevSeen today,
        nj.job.url = u) := by
  unfold run_saved_seen saved_seen_urls
  simp only [List.mem_map, List.mem_filter]
  constructor
  · rintro ⟨nj, ⟨hmem, hne⟩, rfl⟩
    exact ⟨by simpa using hne, nj, hmem, rfl⟩
  · rintro ⟨hne, nj, hmem, rfl⟩
    exact ⟨nj, ⟨hmem, by simpa using hne⟩, rfl⟩

/-! ## Structure lemmas about normalize_jobs -/

/-- Every emitted normalized posting is the `mkNJob` image of its own raw
record: all derived fields are functions of the raw record and the loaded
seen-set alone. -/
theorem normalizeJobsAux_shape (pd : String → Option Int)
    (ee ep : String → List String) (seen : List String) (today : Int) :
    ∀ (jobs : List Job) (s : List String),
      ∀ nj ∈ normalizeJobsAux pd ee ep seen today jobs s,
        nj = mkNJob pd ee ep seen nj.job := by
  intro jobs
  induction jobs with
  | nil =>
    intro s nj h
    simp [normalizeJobsAux] at h
  | cons j rest ih =>
    intro s nj h
    unfold normalizeJobsAux at h
    split at h
    · exact ih s nj h
    · split at h
      · split at h
        · exact ih _ nj h
        · rcases List.mem_cons.mp h with he | h'
          · subst he; rfl
          · exact ih _ nj h'
      · rcases List.mem_cons.mp h with he | h'
        · subst he; rfl
        · exact ih _ nj h'

/-- No emitted normalized posting has a resolved closing date strictly
before `today`. -/
theorem normalizeJobsAux_not_expired (pd : String → Option Int)
    (ee ep : String → List String) (seen : List String) (today : Int) :
    ∀ (jobs : List Job) (s : List String),
      ∀ nj ∈ normalizeJobsAux pd ee ep seen today jobs s,
        ∀ d, nj.close_date = some d → ¬ d < today := by
  intro jobs
  induction jobs with
  | nil =>
    intro s nj h
    simp [normalizeJobsAux] at h
  | cons j rest ih =>
    intro s nj h
    unfold normalizeJobsAux at h
    split at h
    · exact ih s nj h
    · split at h
      · rename_i d0 hC
        split at h
        · exact ih _ nj h
        · rename_i hlt
          rcases List.mem_cons.mp h with he | h'
          · subst he
            intro d hd
            have : pd (closeRaw j) = some d := hd
            rw [hC] at this
            cases this
            exact hlt
          · exact ih _ nj h'
      · rename_i hC
        rcases List.mem_cons.mp h with he | h'
        · subst he
          intro d hd
          have : pd (closeRaw j) = some d := hd
          rw [hC] at this
          cases this
        · exact ih _ nj h'

/-- Lifting the first-wins witness over a skipped head: a tail posting whose
trimmed url differs from the head's survives `find?` over the longer list. -/
theorem find_lift (j : Job) (rest : List Job) (s : List String) (nj : NJob)
    (h : strTrim nj.job.url ≠ "" ∧
      strTrim nj.job.url ∉ (strTrim j.url :: s) ∧
      rest.find? (fun j2 => decide (strTrim j2.url = strTrim nj.job.url))
        = some nj.job) :
    strTrim nj.job.url ≠ "" ∧ strTrim nj.job.url ∉ s ∧
      (j :: rest).find? (fun j2 => decide (strTrim j2.url = strTrim nj.job.url))
        = some nj.job := by
  obtain ⟨hne, hns, hf⟩ := h
  rw [List.mem_cons] at hns
  push_neg at hns
  refine ⟨hne, hns.2, ?_⟩
  have hpj :
      ¬ ((fun j2 => decide (strTrim j2.url = strTrim nj.job.url)) j = true) := by
    simp only [decide_eq_true_eq]
    intro he
    exact hns.1 he.symm
  rw [List.find?_cons_of_neg
    (p := fun j2 => decide (strTrim j2.url = strTrim nj.job.url)) (a := j)
    rest hpj]
  exact hf

/-- Branch equation: a posting with an empty or already-seen trimmed url is
skipped. -/
theorem normalizeJobsAux_cons_skip (pd : String → Option Int)
    (ee ep : String → List String) (seen : List String) (today : Int)
    (j : Job) (rest : List Job) (s : List String)
    (hg : strTrim j.url = "" ∨ strTrim j.url ∈ s) :
    normalizeJobsAux pd ee ep seen today (j :: rest) s
      = normalizeJobsAux pd ee ep seen today rest s := by
  conv_lhs => rw [normalizeJobsAux]
  rw [if_pos hg]

/-- Branch equation: a fresh posting with an expired resolved closing date is
dropped, after recording its url in `seen_in_run`. -/
theorem normalizeJobsAux_cons_drop (pd : String → Option Int)
    (ee ep : String → List String) (seen : List String) (today : Int)
    (j : Job) (rest : List Job) (s : List String) (d : Int)
    (hg : ¬ (strTrim j.url = "" ∨ strTrim j.url ∈ s))
    (hC : pd (closeRaw j) = some d) (hlt : d < today) :
    normalizeJobsAux pd ee ep seen today (j :: rest) s
      = normalizeJobsAux pd ee ep seen today rest (strTrim j.url :: s) := by
  conv_lhs => rw [normalizeJobsAux]
  rw [if_neg hg, hC]
  dsimp only
  rw [if_pos hlt]

/-- Branch equation: a fresh posting with a non-expired resolved closing date
is emitted. -/
theorem normalizeJobsAux_cons_emit_some (pd : String → Option Int)
    (ee ep : String → List String) (seen : List String) (today : Int)
    (j : Job) (rest : List Job) (s : List String) (d : Int)
    (hg : ¬ (strTrim j.url = "" ∨ strTrim j.url ∈ s))
    (hC : pd (closeRaw j) = some d) (hlt : ¬ d < today) :
    normalizeJobsAux pd ee ep seen today (j :: rest) s
      = mkNJob pd ee ep seen j ::
          normalizeJobsAux pd ee ep seen today rest (strTrim j.url :: s) := by
  conv_lhs => rw [normalizeJobsAux]
  rw [if_neg hg, hC]
  dsimp only
  rw [if_neg hlt]

/-- Branch equation: a fresh posting with an unresolvable closing date is
emitted. -/
theorem normalizeJobsAux_cons_emit_none (pd : String → Option Int)
    (ee ep : String → List String) (seen : List String) (today : Int)
    (j : Job) (rest : List Job) (s : List String)
    (hg : ¬ (strTrim j.url = "" ∨ strTrim j.url ∈ s))
    (hC : pd (closeRaw j) = none) :
    normalizeJobsAux pd ee ep seen today (j :: rest) s
      = mkNJob pd ee ep seen j ::
          normalizeJobsAux pd ee ep seen today rest (strTrim j.url :: s) := by
  conv_lhs => rw [normalizeJobsAux]
  rw [if_neg hg, hC]

/-- The dedup invariant of the `normalize_jobs` loop: every output posting
has a non-empty trimmed url not in `seen_in_run`, and is derived from the
first input posting carrying its trimmed url; trimmed urls are pairwise
distinct in the output, and the output's raw records form a sublist of the
input (order preserved). -/
theorem normalizeJobsAux_dedup (pd : String → Option Int)
    (ee ep : String → List String) (seen : List String) (today : Int) :
    ∀ (jobs : List Job) (s : List String),
      (∀ nj ∈ normalizeJobsAux pd ee ep seen today jobs s,
        strTrim nj.job.url ≠ "" ∧ strTrim nj.job.url ∉ s ∧
        jobs.find? (fun j2 => decide (strTrim j2.url = strTrim nj.job.url))
          = some nj.job) ∧
      ((normalizeJobsAux pd ee ep seen today jobs s).map
          (fun nj => strTrim nj.job.url)).Nodup ∧
      ((normalizeJobsAux pd ee ep seen today jobs s).map
          (fun nj => nj.job)).Sublist jobs := by
  intro jobs
  induction jobs with
  | nil =>
    intro s
    refine ⟨?_, ?_, ?_⟩ <;> simp [normalizeJobsAux]
  | cons j rest ih =>
    intro s
    by_cases hg : strTrim j.url = "" ∨ strTrim j.url ∈ s
    · rw [normalizeJobsAux_cons_skip pd ee ep seen today j rest s hg]
      obtain ⟨ih1, ih2, ih3⟩ := ih s
      refine ⟨?_, ih2, ih3.cons j⟩
      intro nj hm
      obtain ⟨hne, hns, hf⟩ := ih1 nj hm
      refine ⟨hne, hns, ?_⟩
      have hpj :
          ¬ ((fun j2 => decide (strTrim j2.url = strTrim nj.job.url)) j
              = true) := by
        simp only [decide_eq_true_eq]
        intro he
        rcases hg with h1 | h1
        · exact hne (he ▸ h1)
        · exact hns (he ▸ h1)
      rw [List.find?_cons_of_neg
        (p := fun j2 => decide (strTrim j2.url = strTrim nj.job.url)) (a := j)
        rest hpj]
      exact hf
    · have hgf := hg
      push_neg at hg
      obtain ⟨hne, hns⟩ := hg
      obtain ⟨ih1, ih2, ih3⟩ := ih (strTrim j.url :: s)
      cases hC : pd (closeRaw j) with
      | none =>
        rw [normalizeJobsAux_cons_emit_none pd ee ep seen today j rest s hgf hC]
        refine ⟨?_, ?_, ?_⟩
        · intro nj hm
          rcases List.mem_cons.mp hm with he | h2
          · subst he
            refine ⟨hne, hns, ?_⟩
            have hp :
                (fun j2 => decide (strTrim j2.url =
                  strTrim (mkNJob pd ee ep seen j).job.url)) j = true :=
              decide_eq_true rfl
            rw [List.find?_cons_of_pos
              (p := fun j2 => decide (strTrim j2.url =
                strTrim (mkNJob pd ee ep seen j).job.url)) (a := j) rest hp]
            rfl
          · exact find_lift j rest s nj (ih1 nj h2)
        · simp only [List.map_cons, List.nodup_cons]
          refine ⟨?_, ih2⟩
          intro hmem
          rw [List.mem_map] at hmem
          obtain ⟨nj, hnj, hurl⟩ := hmem
          have hni := (ih1 nj hnj).2.1
          rw [hurl] at hni
          exact hni (List.mem_cons_self _ _)
        · simp only [List.map_cons]
          exact ih3.cons₂ j
      | some d =>
        by_cases hlt : d < today
        · rw [normalizeJobsAux_cons_drop pd ee ep seen today j rest s d hgf hC
            hlt]
          refine ⟨?_, ih2, ih3.cons j⟩
          intro nj hm
          exact find_lift j rest s nj (ih1 nj hm)
        · rw [normalizeJobsAux_cons_emit_some pd ee ep seen today j rest s d
            hgf hC hlt]
          refine ⟨?_, ?_, ?_⟩
          · intro nj hm
            rcases List.mem_cons.mp hm with he | h2
            · subst he
              refine ⟨hne, hns, ?_⟩
              have hp :
                  (fun j2 => decide (strTrim j2.url =
                    strTrim (mkNJob pd ee ep seen j).job.url)) j = true :=
                decide_eq_true rfl
              rw [List.find?_cons_of_pos
                (p := fun j2 => decide (strTrim j2.url =
                  strTrim (mkNJob pd ee ep seen j).job.url)) (a := j) rest hp]
              rfl
            · exact find_lift j rest s nj (ih1 nj h2)
          · simp only [List.map_cons, List.nodup_cons]
            refine ⟨?_, ih2⟩
            intro hmem
            rw [List.mem_map] at hmem
            obtain ⟨nj, hnj, hurl⟩ := hmem
            have hni := (ih1 nj hnj).2.1
            rw [hurl] at hni
            exact hni (List.mem_cons_self _ _)
          · simp only [List.map_cons]
            exact ih3.cons₂ j

/-! ## C4, C6, C7: normalize_jobs claims -/

/-- Claim C4: every posting emitted by `normalize_jobs` carries as
`close_date` exactly the resolution of its closing-date field, and when that
resolution succeeds the date is never strictly before `today` — an expired
posting is dropped, not emitted with a flag, for any number of days in the
past. -/
theorem C4_expired_never_output (pd : String → Option Int)
    (ee ep : String → List String) (jobs : List Job) (seen : List String)
    (today : Int) :
    ∀ nj ∈ normalize_jobs pd ee ep jobs seen today,
      nj.close_date = pd (closeRaw nj.job) ∧
      ∀ d, nj.close_date = some d → ¬ d < today := by
  intro nj hm
  constructor
  · have hs := normalizeJobsAux_shape pd ee ep seen today jobs [] nj hm
    rw [hs]
    rfl
  · exact normalizeJobsAux_not_expired pd ee ep seen today jobs [] nj hm

/-- Witness for C4: the posting closing on day 5 is emitted on run date 3,
and its resolved date 5 is not before 3. -/
theorem C4_witness : ¬ (5 : Int) < 3 :=
  (C4_expired_never_output pdTest exTest exTest [jobC] [] 3
      (mkNJob pdTest exTest exTest [] jobC) (by decide)).2 5 (by decide)

/-- Claim C6: in any batch, every emitted posting has a non-empty trimmed
url and is derived from the first input posting bearing that trimmed url
(so a later duplicate of an earlier url is never emitted), emitted trimmed
urls are pairwise distinct, and the emitted postings' raw records form a
sublist of the input batch — output order is input order restricted to the
emitted postings. -/
theorem C6_dedup_first_wins (pd : String → Option Int)
    (ee ep : String → List String) (jobs : List Job) (seen : List String)
    (today : Int) :
    (∀ nj ∈ normalize_jobs pd ee ep jobs seen today,
      strTrim nj.job.url ≠ "" ∧
      jobs.find? (fun j2 => decide (strTrim j2.url = strTrim nj.job.url))
        = some nj.job) ∧
    ((normalize_jobs pd ee ep jobs seen today).map
      (fun nj => strTrim nj.job.url)).Nodup ∧
    ((normalize_jobs pd ee ep jobs seen today).map
      (fun nj => nj.job)).Sublist jobs := by
  have h := normalizeJobsAux_dedup pd ee ep seen today jobs []
  exact ⟨fun nj hm => ⟨(h.1 nj hm).1, (h.1 nj hm).2.2⟩, h.2.1, h.2.2⟩

/-- Witness for C6: in the batch `[jobA, jobB]` whose two postings share the
trimmed url `"u1"`, the emitted posting is derived from the first
occurrence `jobA`. -/
theorem C6_witness :
    strTrim (mkNJob pdTest exTest exTest [] jobA).job.url ≠ "" ∧
    [jobA, jobB].find? (fun j2 => decide (strTrim j2.url =
        strTrim (mkNJob pdTest exTest exTest [] jobA).job.url))
      = some (mkNJob pdTest exTest exTest [] jobA).job :=
  (C6_dedup_first_wins pdTest exTest exTest [jobA, jobB] [] 0).1
    (mkNJob pdTest exTest exTest [] jobA) (by decide)

/-- Claim C7: an emitted posting has `is_new = true` iff its trimmed url is
absent from the seen-set loaded at run start; the value never depends on the
rest of the batch — a posting emitted from any other ordering (or any other
batch) with the same trimmed url gets the same `is_new`. -/
theorem C7_is_new_from_loaded_seen (pd : String → Option Int)
    (ee ep : String → List String) (jobs : List Job) (seen : List String)
    (today : Int) :
    ∀ nj ∈ normalize_jobs pd ee ep jobs seen today,
      (nj.is_new = true ↔ strTrim nj.job.url ∉ seen) ∧
      (∀ (jobs2 : List Job),
        ∀ nj2 ∈ normalize_jobs pd ee ep jobs2 seen today,
          strTrim nj2.job.url = strTrim nj.job.url →
          nj2.is_new = nj.is_new) := by
  intro nj hm
  have hshape := normalizeJobsAux_shape pd ee ep seen today jobs [] nj hm
  have hval : nj.is_new = !(decide (strTrim nj.job.url ∈ seen)) := by
    rw [hshape]
    rfl
  constructor
  · rw [hval]
    by_cases hmem : strTrim nj.job.url ∈ seen
    · simp [hmem]
    · simp [hmem]
  · intro jobs2 nj2 hm2 hurl
    have hshape2 := normalizeJobsAux_shape pd ee ep seen today jobs2 [] nj2 hm2
    have hval2 : nj2.is_new = !(decide (strTrim nj2.job.url ∈ seen)) := by
      rw [hshape2]
      rfl
    rw [hval, hval2, hurl]

/-- Witness for C7: the posting with url `"u1"` run against the loaded
seen-set `["x"]` is marked new exactly because `"u1"` is not in that set. -/
theorem C7_witness :
    (mkNJob pdTest exTest exTest ["x"] jobA).is_new = true ↔
      strTrim (mkNJob pdTest exTest exTest ["x"] jobA).job.url ∉ ["x"] :=
  (C7_is_new_from_loaded_seen pdTest exTest exTest [jobA] ["x"] 0
    (mkNJob pdTest exTest exTest ["x"] jobA) (by decide)).1

end JobsTracker
